import Mathlib

/-!
# Verification of the ccoin consensus module and packet parser

A shallow embedding of `src/lib/protocol/consensus.js` and
`src/lib/net/parser.js` from the creativechain/ccoin repository.

JavaScript `Number` bitwise operators work on 32-bit two's-complement
integers (`ToInt32`) and `>>> 0` reinterprets the pattern as an unsigned
32-bit integer (`ToUint32`); arbitrary-precision values (`bn.js`) are
modelled as `Int`.  Byte buffers are modelled as `List Nat`, each entry a
byte value.
-/

namespace Ccoin

/-! ## JavaScript 32-bit integer semantics -/

/-- `ToUint32`: reduce an integer to its unsigned 32-bit pattern. -/
def toUint32 (n : Int) : Nat := (n % (2 ^ 32 : Int)).toNat

/-- `ToInt32`: reduce an integer to its signed 32-bit value. -/
def toInt32 (n : Int) : Int :=
  if toUint32 n < 2 ^ 31 then (toUint32 n : Int) else (toUint32 n : Int) - 2 ^ 32

/-- JavaScript `a << s` (shift count taken mod 32, int32 result). -/
def jsShl (a : Int) (s : Nat) : Int := toInt32 (toInt32 a * 2 ^ (s % 32))

/-- JavaScript `a >> s`: arithmetic right shift of the int32 value. -/
def jsShr (a : Int) (s : Nat) : Int := toInt32 a / 2 ^ (s % 32)

/-- JavaScript `a & b` on int32 values. -/
def jsAnd (a b : Int) : Int := toInt32 ((toUint32 a) &&& (toUint32 b))

/-- JavaScript `a | b` on int32 values. -/
def jsOr (a b : Int) : Int := toInt32 ((toUint32 a) ||| (toUint32 b))

/-! ## bn.js primitives used by the consensus module -/

/-- `BN.prototype.byteLength`: number of bytes of the magnitude, i.e. the
number of base-256 digits, `0` for zero. -/
def byteLength (num : Int) : Nat :=
  if num.natAbs = 0 then 0 else Nat.log 256 num.natAbs + 1

/-- `BN.prototype.ushrn`: right-shift of the magnitude, sign kept. -/
def bnUshrn (num : Int) (s : Nat) : Int :=
  if num < 0 then -((num.natAbs >>> s : Nat) : Int) else ((num.natAbs >>> s : Nat) : Int)

/-- `BN.prototype.iushln`: left-shift of the magnitude, sign kept. -/
def bnIushln (num : Int) (s : Nat) : Int := num * 2 ^ s

/-! ## consensus.js constants (those the claims touch) -/

/-- One creativecoin in satoshis (`exports.COIN`). -/
def COIN : Int := 100000000

/-- `exports.VERSION_TOP_BITS`. -/
def VERSION_TOP_BITS : Nat := 0x20000000

/-- `exports.VERSION_TOP_MASK`. -/
def VERSION_TOP_MASK : Nat := 0xe0000000

/-! ## consensus.js functions -/

/-- `exports.fromCompact`: decode a compact target to a big number. -/
def fromCompact (compact : Nat) : Int :=
  if compact = 0 then 0
  else
    let c := compact % 2 ^ 32
    let exponent := c >>> 24
    let negative := (c >>> 23) &&& 1
    let mantissa := c &&& 0x7fffff
    let num : Int :=
      if exponent ≤ 3 then ((mantissa >>> (8 * (3 - exponent)) : Nat) : Int)
      else bnIushln (mantissa : Int) (8 * (exponent - 3))
    if negative = 1 then -num else num

/-- `exports.toCompact`: encode a big number as a compact target. -/
def toCompact (num : Int) : Nat :=
  if num = 0 then 0
  else
    let exponent := byteLength num
    let mantissa : Int :=
      if exponent ≤ 3 then jsShl num (8 * (3 - exponent))
      else bnUshrn num (8 * (exponent - 3))
    let norm : Int × Nat :=
      if jsAnd mantissa 0x800000 ≠ 0 then (jsShr mantissa 8, exponent + 1)
      else (mantissa, exponent)
    let compact := jsOr (jsShl (norm.2 : Int) 24) norm.1
    let compact := if num < 0 then jsOr compact 0x800000 else compact
    toUint32 compact

/-- Network descriptor.  Modelled from the spec: `lib/protocol/network.js`
is not among the provided sources; §3 of the spec describes the record as
`magic : u32`, `pow.limit : BigInt`, `keccakPow.limit : BigInt`. -/
structure Network where
  magic : Nat
  powLimit : Int
  keccakPowLimit : Int
deriving DecidableEq

/-- Block collaborator.  Modelled from the spec: `verifyPOW` only calls
`AbstractBlock.hasNewPowVersion()`, so a block is just that bit. -/
structure Block where
  newPowVersion : Bool
deriving DecidableEq

/-- `new BN(hash, 'le')`: little-endian number held by a byte buffer. -/
def leNum (hash : List Nat) : Nat :=
  hash.foldr (fun b acc => b % 256 + 256 * acc) 0

/-- `exports.verifyPOW`. -/
def verifyPOW (network : Network) (block : Block) (hash : List Nat) (bits : Nat) : Bool :=
  let target := fromCompact bits
  let powLimit := if block.newPowVersion then network.keccakPowLimit else network.powLimit
  if target < 0 ∨ target = 0 then false
  else
    let num : Int := (leNum hash : Int)
    if num > target then false
    else true

/-- `exports.getReward`.  The JS `assert(height >= 0)` throws on a
negative height; that is `none`.  The chain of independent `if`
statements reassigns `subsidy`, the last matching band winning. -/
def getReward (height : Int) (interval : Int) : Option Int :=
  if height < 0 then none
  else
    let subsidy : Int := 0 * COIN
    let subsidy := if height < 2 then 12226641 * COIN else subsidy
    let subsidy := if height ≤ 6765 ∧ height > 1 then 1 * COIN else subsidy
    let subsidy := if height ≤ 10946 ∧ height > 6765 then 1 * COIN else subsidy
    let subsidy := if height ≤ 17711 ∧ height > 10946 then 2 * COIN else subsidy
    let subsidy := if height ≤ 28657 ∧ height > 17711 then 3 * COIN else subsidy
    let subsidy := if height ≤ 46368 ∧ height > 28657 then 5 * COIN else subsidy
    let subsidy := if height ≤ 75025 ∧ height > 46368 then 8 * COIN else subsidy
    let subsidy := if height ≤ 121393 ∧ height > 75025 then 13 * COIN else subsidy
    let subsidy := if height ≤ 196418 ∧ height > 121393 then 21 * COIN else subsidy
    let subsidy := if height ≤ 317811 ∧ height > 196148 then 34 * COIN else subsidy
    let subsidy := if height ≤ 514229 ∧ height > 317811 then 55 * COIN else subsidy
    let subsidy := if height ≤ 832040 ∧ height > 514229 then 34 * COIN else subsidy
    let subsidy := if height ≤ 1346269 ∧ height > 832040 then 21 * COIN else subsidy
    let subsidy := if height ≤ 2178309 ∧ height > 1346269 then 13 * COIN else subsidy
    let subsidy := if height ≤ 3524578 ∧ height > 2178309 then 8 * COIN else subsidy
    let subsidy := if height ≤ 5702887 ∧ height > 3524578 then 5 * COIN else subsidy
    let subsidy := if height ≤ 9227465 ∧ height > 5702887 then 3 * COIN else subsidy
    let subsidy := if height ≤ 14930352 ∧ height > 9227465 then 2 * COIN else subsidy
    let subsidy := if height ≤ 24157817 ∧ height > 14930352 then 1 * COIN else subsidy
    some subsidy

/-- `exports.hasBit`. -/
def hasBit (version : Nat) (bit : Nat) : Bool :=
  let bits := toUint32 (jsAnd (version : Int) (VERSION_TOP_MASK : Int))
  let mask := jsShl 1 bit
  (bits == VERSION_TOP_BITS) && (jsAnd (version : Int) mask != 0)

/-! ## parser.js embedding

`src/lib/net/parser.js` keeps a FIFO `pending` of byte buffers, a running
`total`, a `waiting` threshold and an optional parsed `header`.  Event
emission is modelled by returning the list of emitted notifications.
External collaborators are parameters: `MAX_MESSAGE` (the constant `M`
from the protocol `common` module, not among the provided sources), the
checksum `chk data = hash256(data).readUInt32LE(0)` (external `digest`
module) and the codec `fromRaw` (external `packets` module, whose
exceptions are `Except.error`). -/

/-- Parsed packet header (`new Header(cmd, size, checksum)`). -/
structure Header where
  cmd : List Nat
  size : Nat
  checksum : Nat
deriving DecidableEq

/-- Parser state (`this.pending/total/waiting/header`, plus the network). -/
structure Parser where
  network : Network
  pending : List (List Nat)
  total : Nat
  waiting : Nat
  header : Option Header
deriving DecidableEq

/-- `new Parser(network)`. -/
def Parser.init (network : Network) : Parser :=
  { network := network, pending := [], total := 0, waiting := 24, header := none }

/-- A notification: a `packet` event or one of the `error` events emitted
through `this.error` / `this.emit`, carrying the formatted-in datum. -/
inductive PEvent (ε α : Type) where
  | packet (payload : α)
  | invalidMagic (magic : Nat)
  | unterminatedCommand
  | oversizePacket (size : Nat)
  | invalidChecksum (checksum : Nat)
  | decodeError (e : ε)
deriving DecidableEq

/-- `data.readUInt32LE(off, true)`; a `Buffer` holds bytes. -/
def readU32LE (data : List Nat) (off : Nat) : Nat :=
  data.getD off 0 % 256 + 256 * (data.getD (off + 1) 0 % 256) +
    65536 * (data.getD (off + 2) 0 % 256) + 16777216 * (data.getD (off + 3) 0 % 256)

/-- Fueled helper for `cmdScan`; from counter `i` the loop checks its
condition at most `13 - i` times, which the fuel exactly covers. -/
def cmdScanAux (data : List Nat) : Nat → Nat → Nat
  | 0, i => i
  | fuel + 1, i =>
    if data[i + 4]? ≠ some 0 ∧ i < 12 then cmdScanAux data fuel (i + 1) else i

/-- The command scan `for (i = 0; data[i + 4] !== 0 && i < 12; i++);`.
An out-of-bounds read yields `undefined` in JS, and `undefined !== 0`,
hence the `Option`-valued lookup. -/
def cmdScan (data : List Nat) (i : Nat) : Nat := cmdScanAux data (13 - i) i

/-- `data.toString('ascii', a, b)`: the ascii codec masks bytes to 7 bits. -/
def asciiSlice (data : List Nat) (a b : Nat) : List Nat :=
  ((data.drop a).take (b - a)).map (· % 128)

section ParserOps

variable {ε α : Type} (M : Nat) (chk : List Nat → Nat)
variable (fromRaw : List Nat → List Nat → Except ε α)

/-- `Parser.prototype.parseHeader`.  Returns the emitted events, the new
`this.waiting` and the returned header (`null` = `none`). -/
def parseHeader (net : Network) (waiting : Nat) (data : List Nat) :
    List (PEvent ε α) × Nat × Option Header :=
  let magic := readU32LE data 0
  if magic ≠ net.magic then
    ([.invalidMagic magic], waiting, none)
  else
    let i := cmdScan data 0
    if i = 12 then
      ([.unterminatedCommand], waiting, none)
    else
      let cmd := asciiSlice data 4 (4 + i)
      let size := readU32LE data 16
      if size > M then
        ([.oversizePacket size], 24, none)
      else
        let checksum := readU32LE data 20
        ([], size, some ⟨cmd, size, checksum⟩)

/-- Repackaging of `parse` on the only parser fields it consults
(network, waiting, header); proven equal to `parse` in `parse_eq_core`.
Used to reason about states that differ only in buffer layout. -/
def parseCore (net : Network) (waiting : Nat) (hdr : Option Header) (data : List Nat) :
    Option (List (PEvent ε α) × Nat × Option Header) :=
  if data.length > M then none
  else
    match hdr with
    | none => some (parseHeader M net waiting data)
    | some h =>
      let checksum := chk data
      if checksum ≠ h.checksum then some ([.invalidChecksum checksum], 24, none)
      else
        match fromRaw h.cmd data with
        | .error e => some ([.decodeError e], 24, none)
        | .ok payload => some ([.packet payload], 24, none)

/-- `Parser.prototype.parse`.  `none` models the thrown
`assert(data.length <= common.MAX_MESSAGE)`. -/
def parse (p : Parser) (data : List Nat) : Option (List (PEvent ε α) × Parser) :=
  if data.length > M then none
  else
    match p.header with
    | none =>
      let r := parseHeader (ε := ε) (α := α) M p.network p.waiting data
      some (r.1, { p with waiting := r.2.1, header := r.2.2 })
    | some hdr =>
      let checksum := chk data
      if checksum ≠ hdr.checksum then
        some ([.invalidChecksum checksum], { p with waiting := 24, header := none })
      else
        match fromRaw hdr.cmd data with
        | .error e => some ([.decodeError e], { p with waiting := 24, header := none })
        | .ok payload => some ([.packet payload], { p with waiting := 24, header := none })

/-- The chunk-filling inner loop of `feed`: take `need` bytes off the head
of `pending`, advancing partially consumed buffers. -/
def drain : List (List Nat) → Nat → List Nat × List (List Nat)
  | pending, 0 => ([], pending)
  | [], _ + 1 => ([], [])
  | buf :: rest, need + 1 =>
    if buf.length ≤ need + 1 then
      let r := drain rest (need + 1 - buf.length)
      (buf ++ r.1, r.2)
    else
      (buf.take (need + 1), buf.drop (need + 1) :: rest)

/-- The `while (this.total >= this.waiting)` loop of `feed`.  The fuel is
an upper bound on the number of iterations; `feed` always supplies enough
(each iteration either consumes `waiting ≥ 1` bytes or, when
`waiting = 0`, performs a payload step that resets `waiting` to 24). -/
def feedLoop : Nat → Parser → List (PEvent ε α) × Option Parser
  | 0, _p => ([], none)
  | fuel + 1, p =>
    if p.waiting ≤ p.total then
      let d := drain p.pending p.waiting
      let p1 : Parser := { p with pending := d.2, total := p.total - p.waiting }
      match parse M chk fromRaw p1 d.1 with
      | none => ([], none)
      | some r =>
        let rec1 := feedLoop fuel r.2
        (r.1 ++ rec1.1, rec1.2)
    else
      ([], some p)

/-- The first two lines of `feed`: append `data`, bump `total`. -/
def pushBuf (p : Parser) (data : List Nat) : Parser :=
  { p with total := p.total + data.length, pending := p.pending ++ [data] }

/-- `Parser.prototype.feed`. -/
def feed (p : Parser) (data : List Nat) : List (PEvent ε α) × Option Parser :=
  let p' := pushBuf p data
  feedLoop M chk fromRaw (2 * p'.total + 2) p'

/-- A sequence of `feed` calls; a thrown assertion (`none`) stops it. -/
def feedAll : Parser → List (List Nat) → List (PEvent ε α) × Option Parser
  | p, [] => ([], some p)
  | p, d :: rest =>
    let r := feed M chk fromRaw p d
    match r.2 with
    | none => (r.1, none)
    | some p1 =>
      let r2 := feedAll p1 rest
      (r.1 ++ r2.1, r2.2)

end ParserOps

/-- Two parser states that agree except possibly in how the pending bytes
are sliced into buffers. -/
def StEquiv (p q : Parser) : Prop :=
  p.network = q.network ∧ p.pending.flatten = q.pending.flatten ∧
    p.total = q.total ∧ p.waiting = q.waiting ∧ p.header = q.header

/-- The parser's data invariant: `total` counts the pending bytes, a
missing header means the parser awaits the 24 header bytes, and a parsed
header's validated `size` is the current threshold. -/
def Inv (M : Nat) (p : Parser) : Prop :=
  p.total = p.pending.flatten.length ∧
    (p.header = none → p.waiting = 24) ∧
    (∀ h, p.header = some h → p.waiting = h.size ∧ h.size ≤ M)

/-- Termination measure of the `feed` loop: every iteration decreases it. -/
def pMeasure (p : Parser) : Nat :=
  2 * p.total + (if p.waiting = 0 then 1 else 0)

/-- Results of `feed`/`feedLoop` that agree on the emitted notifications
and whose final states (if any) are `StEquiv`. -/
def ResEquiv {ε α : Type} (r s : List (PEvent ε α) × Option Parser) : Prop :=
  r.1 = s.1 ∧
    ((r.2 = none ∧ s.2 = none) ∨ ∃ p q, r.2 = some p ∧ s.2 = some q ∧ StEquiv p q)

example : hasBit 0x20000001 0 = true := by decide
example : hasBit 0x40000001 0 = false := by decide
example : hasBit 0x20000000 0 = false := by decide
example : getReward 0 0 = some (12226641 * COIN) := by decide
example : getReward 2 0 = some (1 * COIN) := by decide
example : getReward 46368 0 = some (5 * COIN) := by decide
example : getReward 196149 0 = some (34 * COIN) := by decide
example : getReward 196148 0 = some (21 * COIN) := by decide
example : getReward 24157818 0 = some 0 := by decide
/-- Concrete-value helper for `byteLength`. -/
theorem byteLength_eq (num : Int) (k : Nat) (hk : 0 < k)
    (h1 : 256 ^ (k - 1) ≤ num.natAbs) (h2 : num.natAbs < 256 ^ k) :
    byteLength num = k := by
  have hne : num.natAbs ≠ 0 := by
    intro h0
    exact absurd (h0 ▸ h1) (pow_pos (by norm_num : (0:ℕ) < 256) (k - 1)).not_le
  rw [byteLength, if_neg hne]
  have hlog : Nat.log 256 num.natAbs = k - 1 :=
    Nat.log_eq_of_pow_le_of_lt_pow h1 (by rwa [Nat.sub_add_cancel hk])
  omega

set_option maxRecDepth 4096 in
example : fromCompact 0x1d00ffff = 0xffff * (2 ^ (8 * 26) : Int) := by decide
example : byteLength 16777217 = 4 := by
  apply byteLength_eq <;> norm_num

/-! ## Arithmetic facts about the JavaScript 32-bit helpers -/

theorem toUint32_natCast (n : Nat) : toUint32 (n : Int) = n % 2 ^ 32 := by
  unfold toUint32; omega

theorem toUint32_natCast_small (n : Nat) (h : n < 2 ^ 32) : toUint32 (n : Int) = n := by
  rw [toUint32_natCast]; omega

theorem toInt32_natCast_small (n : Nat) (h : n < 2 ^ 31) : toInt32 (n : Int) = (n : Int) := by
  unfold toInt32 toUint32; split <;> omega

theorem toUint32_toInt32 (x : Int) : toUint32 (toInt32 x) = toUint32 x := by
  unfold toInt32 toUint32; split <;> omega

/-- `jsAnd` on byte patterns below `2^32` is plain `Nat.and` (then int32). -/
theorem jsAnd_natCast (a b : Nat) (ha : a < 2 ^ 32) (hb : b < 2 ^ 32) :
    jsAnd (a : Int) (b : Int) = toInt32 ((a &&& b : Nat) : Int) := by
  unfold jsAnd
  rw [toUint32_natCast_small a ha, toUint32_natCast_small b hb]

theorem jsAnd_natCast_small (a b : Nat) (ha : a < 2 ^ 32) (hb : b < 2 ^ 31) :
    jsAnd (a : Int) (b : Int) = ((a &&& b : Nat) : Int) := by
  rw [jsAnd_natCast a b ha (by omega)]
  exact toInt32_natCast_small _ (lt_of_le_of_lt Nat.and_le_right hb)

theorem jsOr_natCast_small (a b : Nat) (ha : a < 2 ^ 31) (hb : b < 2 ^ 31) :
    jsOr (a : Int) (b : Int) = ((a ||| b : Nat) : Int) := by
  unfold jsOr
  rw [toUint32_natCast_small a (by omega), toUint32_natCast_small b (by omega)]
  refine toInt32_natCast_small _ ?_
  have := Nat.or_lt_two_pow (n := 31) (by omega : a < 2 ^ 31) (by omega : b < 2 ^ 31)
  omega

theorem jsShl_natCast_small (a : Nat) (s : Nat) (hs : s < 32)
    (h : a * 2 ^ s < 2 ^ 31) : jsShl (a : Int) s = ((a * 2 ^ s : Nat) : Int) := by
  unfold jsShl
  rw [Nat.mod_eq_of_lt hs, toInt32_natCast_small a (by nlinarith [Nat.one_le_two_pow (n := s)])]
  rw [show ((a : Int) * 2 ^ s) = ((a * 2 ^ s : Nat) : Int) by push_cast; ring]
  exact toInt32_natCast_small _ h

theorem jsShr_natCast (a : Nat) (s : Nat) (ha : a < 2 ^ 31) :
    jsShr (a : Int) s = ((a / 2 ^ (s % 32) : Nat) : Int) := by
  unfold jsShr
  rw [toInt32_natCast_small a ha]
  rw [show ((2 : Int) ^ (s % 32)) = ((2 ^ (s % 32) : Nat) : Int) by push_cast; ring]
  exact (Int.ofNat_div _ _).symm

/-! ## Claim theorems: consensus module -/

/-- **C1** (code bug record): at height 196149 — inside the spec table's
`121394 – 196418 ↦ 21` band — `getReward` returns `34 * COIN`, because the
band `height <= 317811 && height > 196148` (a typo for `196418`) is tested
later and overwrites the `21 * COIN` assignment. -/
theorem getReward_bug_at_196149 :
    getReward 196149 0 = some (34 * COIN) ∧ (34 * COIN : Int) ≠ 21 * COIN := by
  constructor
  · decide
  · decide

set_option maxHeartbeats 1000000 in
/-- **C8**: for every height `h ≥ 0` the reward is defined, non-negative,
at most `12,226,641 * COIN`, and zero beyond height `24,157,817`. -/
theorem getReward_bounded (height : Int) (h : 0 ≤ height) (interval : Int) :
    ∃ v, getReward height interval = some v ∧ 0 ≤ v ∧ v ≤ 12226641 * COIN ∧
      (24157817 < height → v = 0) := by
  rw [getReward.eq_def, if_neg (not_lt.mpr h)]
  refine ⟨_, rfl, ?_, ?_, fun hgt => ?_⟩ <;> unfold COIN <;> omega

/-- Witness for `getReward_bounded` at height 3. -/
theorem getReward_bounded_witness :
    0 ≤ (3 : Int) ∧ ∃ v, getReward 3 0 = some v ∧ 0 ≤ v ∧ v ≤ 12226641 * COIN ∧
      (24157817 < (3 : Int) → v = 0) :=
  ⟨by decide, getReward_bounded 3 (by decide) 0⟩

/-- **C10**: the declared `interval` argument of `getReward` is never read:
the result is the same for any two values of it. -/
theorem getReward_interval_irrelevant (height : Int) (h : 0 ≤ height) (i1 i2 : Int) :
    getReward height i1 = getReward height i2 := rfl

/-- Witness for `getReward_interval_irrelevant`. -/
theorem getReward_interval_irrelevant_witness :
    0 ≤ (5 : Int) ∧ getReward 5 3 = getReward 5 7 :=
  ⟨by decide, getReward_interval_irrelevant 5 (by decide) 3 7⟩

/-- **C2**: `verifyPOW` returns `false` for a non-positive decoded target,
otherwise compares the little-endian hash value against the target; the
network's pow limits and the block's pow version are never consulted. -/
theorem verifyPOW_spec (n1 n2 : Network) (b1 b2 : Block) (hash : List Nat) (bits : Nat)
    (hlen : hash.length = 32) (hbits : bits < 2 ^ 32) :
    (fromCompact bits ≤ 0 → verifyPOW n1 b1 hash bits = false) ∧
    (0 < fromCompact bits →
      (verifyPOW n1 b1 hash bits = true ↔ (leNum hash : Int) ≤ fromCompact bits)) ∧
    verifyPOW n1 b1 hash bits = verifyPOW n2 b2 hash bits := by
  refine ⟨fun hle => ?_, fun hpos => ?_, rfl⟩
  · simp only [verifyPOW]
    rw [if_pos (show fromCompact bits < 0 ∨ fromCompact bits = 0 by omega)]
  · simp only [verifyPOW]
    rw [if_neg (show ¬(fromCompact bits < 0 ∨ fromCompact bits = 0) by omega)]
    split_ifs with hgt
    · simp only [false_iff]
      omega
    · simp only [true_iff]
      omega

/-- Witness for `verifyPOW_spec`: a hash of value 1 against target
`fromCompact 0x207fffff`. -/
theorem verifyPOW_spec_witness :
    ((1 :: List.replicate 31 0).length = 32 ∧ 0x207fffff < 2 ^ 32) ∧
    ((fromCompact 0x207fffff ≤ 0 →
        verifyPOW ⟨0, 1, 1⟩ ⟨false⟩ (1 :: List.replicate 31 0) 0x207fffff = false) ∧
      (0 < fromCompact 0x207fffff →
        (verifyPOW ⟨0, 1, 1⟩ ⟨false⟩ (1 :: List.replicate 31 0) 0x207fffff = true ↔
          (leNum (1 :: List.replicate 31 0) : Int) ≤ fromCompact 0x207fffff)) ∧
      verifyPOW ⟨0, 1, 1⟩ ⟨false⟩ (1 :: List.replicate 31 0) 0x207fffff =
        verifyPOW ⟨7, 5, 9⟩ ⟨true⟩ (1 :: List.replicate 31 0) 0x207fffff) :=
  ⟨⟨by decide, by decide⟩,
    verifyPOW_spec ⟨0, 1, 1⟩ ⟨7, 5, 9⟩ ⟨false⟩ ⟨true⟩ _ _ (by decide) (by decide)⟩

/-- **C9**: for a u32 `version` and bit index `≤ 28`, `hasBit` holds iff
the top three bits of `version` are exactly `001` and bit `bit` is set. -/
theorem hasBit_spec (version bit : Nat) (hv : version < 2 ^ 32) (hb : bit ≤ 28) :
    hasBit version bit = true ↔
      (version &&& VERSION_TOP_MASK = VERSION_TOP_BITS ∧ version.testBit bit = true) := by
  have hand32 : version &&& (0xe0000000 : Nat) < 2 ^ 32 :=
    lt_of_le_of_lt Nat.and_le_left hv
  have hbits : toUint32 (jsAnd (version : Int) ((0xe0000000 : Nat) : Int)) =
      version &&& 0xe0000000 := by
    rw [jsAnd_natCast version 0xe0000000 hv (by norm_num), toUint32_toInt32,
      toUint32_natCast_small _ hand32]
  have hpow : (2 : Nat) ^ bit < 2 ^ 29 := Nat.pow_lt_pow_right (by norm_num) (by omega)
  have hone : toInt32 1 = 1 := by decide
  have hmask : jsShl 1 bit = (((2 : Nat) ^ bit : Nat) : Int) := by
    unfold jsShl
    rw [hone, Nat.mod_eq_of_lt (show bit < 32 by omega), one_mul,
      show ((2 : Int) ^ bit) = (((2 : Nat) ^ bit : Nat) : Int) by push_cast; ring]
    exact toInt32_natCast_small _ (by omega)
  have handbit : jsAnd (version : Int) (((2 : Nat) ^ bit : Nat) : Int) =
      ((version &&& 2 ^ bit : Nat) : Int) :=
    jsAnd_natCast_small version (2 ^ bit) hv (by omega)
  simp only [hasBit, VERSION_TOP_MASK, VERSION_TOP_BITS] at *
  rw [hmask, handbit, hbits, Bool.and_eq_true, beq_iff_eq, bne_iff_ne]
  have htwo : (2 : Nat) ^ bit ≠ 0 := by positivity
  rw [Nat.and_two_pow]
  constructor
  · rintro ⟨h1, h2⟩
    refine ⟨h1, ?_⟩
    by_contra hf
    rw [Bool.not_eq_true] at hf
    rw [hf] at h2
    simp at h2
  · rintro ⟨h1, h2⟩
    refine ⟨h1, ?_⟩
    rw [h2]
    simp [htwo]

/-- Witness for `hasBit_spec` at `version = 0x20000001`, `bit = 0`. -/
theorem hasBit_spec_witness :
    ((0x20000001 : Nat) < 2 ^ 32 ∧ (0 : Nat) ≤ 28) ∧
      (hasBit 0x20000001 0 = true ↔
        (0x20000001 &&& VERSION_TOP_MASK = VERSION_TOP_BITS ∧
          (0x20000001 : Nat).testBit 0 = true)) :=
  ⟨⟨by decide, by decide⟩, hasBit_spec 0x20000001 0 (by decide) (by decide)⟩

/-! ## Compact-target round trip (C3) -/

theorem byteLength_pos_bounds (x : Int) (hx : x ≠ 0) :
    256 ^ (byteLength x - 1) ≤ x.natAbs ∧ x.natAbs < 256 ^ byteLength x ∧
      1 ≤ byteLength x := by
  have hne : x.natAbs ≠ 0 := Int.natAbs_ne_zero.mpr hx
  unfold byteLength
  rw [if_neg hne]
  refine ⟨?_, ?_, by omega⟩
  · simpa using Nat.pow_log_le_self 256 hne
  · simpa [Nat.succ_eq_add_one] using
      Nat.lt_pow_succ_log_self (by norm_num : 1 < 256) x.natAbs

/-- Decoding a packed compact with a normalized 23-bit mantissa. -/
theorem fromCompact_eval (E M : Nat) (hM : M < 2 ^ 23) (hE1 : 1 ≤ E) (hE : E ≤ 33) :
    fromCompact (E * 2 ^ 24 + M) =
      ((if E ≤ 3 then M / 256 ^ (3 - E) else M * 256 ^ (E - 3) : Nat) : Int) := by
  have hc32 : E * 2 ^ 24 + M < 2 ^ 32 := by omega
  have hne : E * 2 ^ 24 + M ≠ 0 := by omega
  have hmod : (E * 2 ^ 24 + M) % 2 ^ 32 = E * 2 ^ 24 + M := Nat.mod_eq_of_lt hc32
  have hexp : (E * 2 ^ 24 + M) >>> 24 = E := by
    rw [Nat.shiftRight_eq_div_pow]; omega
  have hneg : ((E * 2 ^ 24 + M) >>> 23) &&& 1 = 0 := by
    rw [Nat.shiftRight_eq_div_pow, Nat.and_one_is_mod]; omega
  have hmant : (E * 2 ^ 24 + M) &&& 0x7fffff = M := by
    rw [show (0x7fffff : Nat) = 2 ^ 23 - 1 by norm_num, Nat.and_pow_two_sub_one_eq_mod]
    omega
  unfold fromCompact
  rw [if_neg hne]
  simp only [hmod, hexp, hneg, hmant]
  rw [if_neg (by norm_num : ¬(0 : Nat) = 1)]
  split_ifs with hE3
  · rw [Nat.shiftRight_eq_div_pow, pow_mul]
    norm_num
  · unfold bnIushln
    rw [pow_mul]
    push_cast
    ring

/-- Packing an exponent byte and a 24-bit mantissa. -/
theorem jsOr_pack (E M : Nat) (hE : E ≤ 34) (hM : M < 2 ^ 24) :
    jsOr (jsShl (E : Int) 24) (M : Int) = ((E * 2 ^ 24 + M : Nat) : Int) := by
  have hshl : jsShl (E : Int) 24 = ((E * 2 ^ 24 : Nat) : Int) :=
    jsShl_natCast_small E 24 (by norm_num) (by omega)
  rw [hshl, jsOr_natCast_small _ _ (by omega) (by omega)]
  congr 1
  rw [mul_comm E]
  exact (Nat.mul_add_lt_is_or hM E).symm

/-- **C3** fails as stated: `x = 0x01000001` has byte length 4, is
non-negative, yet `toCompact` truncates its low byte, so the round trip
returns `0x01000000`. -/
theorem compact_roundtrip_counterexample :
    0 ≤ (16777217 : Int) ∧ byteLength (16777217 : Int) ≤ 32 ∧
      fromCompact (toCompact (16777217 : Int)) ≠ (16777217 : Int) := by
  have h4 : byteLength (16777217 : Int) = 4 := by
    apply byteLength_eq <;> norm_num
  refine ⟨by norm_num, by omega, ?_⟩
  have ht : toCompact (16777217 : Int) = 0x04010000 := by
    unfold toCompact
    rw [if_neg (by norm_num : (16777217 : Int) ≠ 0), h4]
    decide
  rw [ht]
  decide

set_option maxHeartbeats 800000 in
/-- **C3 amended**: the round trip `fromCompact ∘ toCompact` is the
identity on every non-negative integer of byte length at most 32 whose
significant bytes fit the 23-bit mantissa, i.e. every `x = m * 256 ^ k`
with `m < 2 ^ 23` (for other values `toCompact` truncates low bytes). -/
theorem fromCompact_toCompact_of_representable (x : Int) (h0 : 0 ≤ x)
    (h32 : byteLength x ≤ 32) (m k : Nat) (hm : m < 2 ^ 23)
    (hx : x = (m : Int) * 256 ^ k) :
    fromCompact (toCompact x) = x := by
  rcases eq_or_ne x 0 with rfl | hx0
  · decide
  · obtain ⟨hlow, hhigh, he1⟩ := byteLength_pos_bounds x hx0
    set e := byteLength x with hedef
    set n := x.natAbs with hndef
    have hxn : ((n : Nat) : Int) = x := Int.natAbs_of_nonneg h0
    have hnm : n = m * 256 ^ k := by
      have h' : ((n : Nat) : Int) = ((m * 256 ^ k : Nat) : Int) := by
        rw [hxn, hx]; push_cast; ring
      exact_mod_cast h'
    have hn0 : n ≠ 0 := Int.natAbs_ne_zero.mpr hx0
    have he32 : e ≤ 32 := h32
    have hnlt : n < 256 ^ (k + 3) := by
      calc n = m * 256 ^ k := hnm
        _ < 2 ^ 24 * 256 ^ k :=
            mul_lt_mul_of_pos_right (by omega) (pow_pos (by norm_num) k)
        _ = 256 ^ (k + 3) := by
            rw [pow_add, show ((2 : Nat) ^ 24) = 256 ^ 3 by norm_num, mul_comm]
    have hek : e ≤ k + 3 := by
      by_contra hh
      push_neg at hh
      have h1 : 256 ^ (k + 3) ≤ 256 ^ (e - 1) :=
        Nat.pow_le_pow_right (by norm_num) (by omega)
      exact lt_irrefl n (lt_of_lt_of_le hnlt (h1.trans hlow))
    have hb1 : e ≤ 3 → n * 256 ^ (3 - e) < 2 ^ 24 := by
      intro h3
      have h1 : n * 256 ^ (3 - e) < 256 ^ e * 256 ^ (3 - e) :=
        mul_lt_mul_of_pos_right hhigh (pow_pos (by norm_num) _)
      rw [← pow_add, show e + (3 - e) = 3 by omega] at h1
      exact lt_of_lt_of_eq h1 (by norm_num)
    have hdvd : 4 ≤ e → 256 ^ (e - 3) ∣ n := by
      intro he4
      exact dvd_trans (pow_dvd_pow 256 (by omega : e - 3 ≤ k))
        (hnm ▸ dvd_mul_left (256 ^ k) m)
    set M0 : Nat := if e ≤ 3 then n * 256 ^ (3 - e) else n / 256 ^ (e - 3) with hM0def
    have hM0lt : M0 < 2 ^ 24 := by
      rw [hM0def]
      split_ifs with h3
      · exact hb1 h3
      · rw [Nat.div_lt_iff_lt_mul (pow_pos (by norm_num) _)]
        calc n < 256 ^ e := hhigh
          _ = 2 ^ 24 * 256 ^ (e - 3) := by
              rw [show ((2 : Nat) ^ 24) = 256 ^ 3 by norm_num, ← pow_add,
                show 3 + (e - 3) = e by omega]
    have hM0j : ∃ j, M0 = m * 256 ^ j := by
      rw [hM0def]
      split_ifs with h3
      · exact ⟨k + (3 - e), by rw [hnm, pow_add]; ring⟩
      · refine ⟨k - (e - 3), ?_⟩
        rw [hnm, Nat.mul_div_assoc m (pow_dvd_pow 256 (by omega : e - 3 ≤ k)),
          Nat.pow_div (by omega) (by norm_num)]
    have hR1 : e ≤ 3 → M0 = n * 256 ^ (3 - e) := by
      intro h3; rw [hM0def, if_pos h3]
    have hR2 : 4 ≤ e → M0 * 256 ^ (e - 3) = n := by
      intro he4
      rw [hM0def, if_neg (by omega)]
      exact Nat.div_mul_cancel (hdvd he4)
    have hmant_int :
        (if e ≤ 3 then jsShl x (8 * (3 - e)) else bnUshrn x (8 * (e - 3))) =
          ((M0 : Nat) : Int) := by
      rw [hM0def]
      split_ifs with h3
      · rw [← hxn]
        rw [jsShl_natCast_small n (8 * (3 - e)) (by omega)
          (by rw [pow_mul]; norm_num; exact lt_trans (hb1 h3) (by norm_num))]
        congr 1
        rw [pow_mul]
        norm_num
      · rw [← hxn]
        unfold bnUshrn
        rw [if_neg (not_lt.mpr (Int.natCast_nonneg n))]
        congr 1
        rw [Int.natAbs_ofNat, Nat.shiftRight_eq_div_pow, pow_mul]
        norm_num
    have h23iff : M0.testBit 23 = true ↔ 2 ^ 23 ≤ M0 := by
      rw [Nat.testBit_to_div_mod]
      simp only [decide_eq_true_eq]
      omega
    have hcondval : jsAnd ((M0 : Nat) : Int) 0x800000 =
        (((M0.testBit 23).toNat * 2 ^ 23 : Nat) : Int) := by
      rw [show (0x800000 : Int) = ((0x800000 : Nat) : Int) by norm_num]
      rw [jsAnd_natCast_small M0 0x800000 (by omega) (by norm_num)]
      congr 1
      rw [show (0x800000 : Nat) = 2 ^ 23 by norm_num, Nat.and_two_pow]
    by_cases hnorm : 2 ^ 23 ≤ M0
    · -- mantissa has bit 23 set: shift right by 8, bump the exponent
      obtain ⟨j, hj⟩ := hM0j
      have hj1 : 1 ≤ j := by
        by_contra hh
        push_neg at hh
        obtain rfl : j = 0 := by omega
        rw [pow_zero, mul_one] at hj
        omega
      have h256j : (256 : Nat) ^ j = 256 ^ (j - 1) * 256 := by
        rw [← pow_succ, Nat.sub_add_cancel hj1]
      have hdvd256 : 256 ∣ M0 :=
        ⟨m * 256 ^ (j - 1), by rw [hj, h256j]; ring⟩
      have hcond : jsAnd ((M0 : Nat) : Int) 0x800000 ≠ 0 := by
        rw [hcondval, h23iff.mpr hnorm]
        simp
      have htc : toCompact x = (e + 1) * 2 ^ 24 + M0 / 256 := by
        simp only [toCompact]
        rw [if_neg hx0, ← hedef, hmant_int, if_pos hcond]
        rw [jsShr_natCast M0 8 (by omega)]
        rw [if_neg (not_lt.mpr h0)]
        rw [show ((M0 / 2 ^ (8 % 32) : Nat) : Int) = ((M0 / 256 : Nat) : Int) by norm_num]
        rw [jsOr_pack (e + 1) (M0 / 256) (by omega) (by omega)]
        rw [toUint32_natCast_small _ (by omega)]
      rw [htc, fromCompact_eval (e + 1) (M0 / 256) (by omega) (by omega) (by omega)]
      rw [← hxn]
      congr 1
      obtain ⟨q, hq⟩ := hdvd256
      have hqv : M0 / 256 = q := by omega
      split_ifs with h3
      · -- e + 1 ≤ 3
        have hM0e : M0 = n * 256 ^ (3 - e) := hR1 (by omega)
        rw [hqv]
        have hq2 : (n * 256 ^ (2 - e)) * 256 = 256 * q := by
          calc (n * 256 ^ (2 - e)) * 256 = n * (256 ^ (2 - e) * 256) := by ring
            _ = n * 256 ^ (3 - e) := by
                rw [← pow_succ, show (2 - e) + 1 = 3 - e by omega]
            _ = M0 := hM0e.symm
            _ = 256 * q := hq
        have hqn : q = n * 256 ^ (2 - e) := by omega
        rw [hqn, show (3 : Nat) - (e + 1) = 2 - e by omega,
          Nat.mul_div_cancel _ (pow_pos (by norm_num) _)]
      · -- e + 1 > 3, so e ≥ 3
        rcases Nat.lt_or_ge e 4 with he3 | he4
        · have he3' : e = 3 := by omega
          have hM0e : M0 = n := by
            have h' := hR1 (by omega)
            rw [he3'] at h'
            simpa using h'
          rw [hqv, he3', show (3 : Nat) + 1 - 3 = 1 by norm_num, pow_one]
          omega
        · have hn' : M0 * 256 ^ (e - 3) = n := hR2 he4
          rw [hqv, show e + 1 - 3 = (e - 3) + 1 by omega, pow_succ]
          calc q * (256 ^ (e - 3) * 256) = (256 * q) * 256 ^ (e - 3) := by ring
            _ = M0 * 256 ^ (e - 3) := by rw [← hq]
            _ = n := hn'
    · -- mantissa already normalized
      have hcond : ¬ jsAnd ((M0 : Nat) : Int) 0x800000 ≠ 0 := by
        rw [hcondval]
        have : M0.testBit 23 = false := by
          rcases Bool.eq_false_or_eq_true (M0.testBit 23) with h | h
          · exact absurd (h23iff.mp h) hnorm
          · exact h
        rw [this]
        simp
      have htc : toCompact x = e * 2 ^ 24 + M0 := by
        simp only [toCompact]
        rw [if_neg hx0, ← hedef, hmant_int, if_neg hcond]
        rw [if_neg (not_lt.mpr h0)]
        rw [jsOr_pack e M0 (by omega) (by omega)]
        rw [toUint32_natCast_small _ (by omega)]
      rw [htc, fromCompact_eval e M0 (by omega) he1 (by omega)]
      rw [← hxn]
      congr 1
      split_ifs with h3
      · rw [hR1 h3, Nat.mul_div_cancel _ (pow_pos (by norm_num) _)]
      · exact hR2 (by omega)

/-- Witness for `fromCompact_toCompact_of_representable` at
`x = 65536 = 1 * 256 ^ 2`. -/
theorem fromCompact_toCompact_of_representable_witness :
    (0 ≤ (65536 : Int) ∧ byteLength (65536 : Int) ≤ 32 ∧ (1 : Nat) < 2 ^ 23 ∧
      (65536 : Int) = ((1 : Nat) : Int) * 256 ^ 2) ∧
      fromCompact (toCompact (65536 : Int)) = (65536 : Int) :=
  ⟨⟨by norm_num,
    by rw [byteLength_eq 65536 3 (by norm_num) (by norm_num) (by norm_num)]; norm_num,
    by norm_num, by norm_num⟩,
    fromCompact_toCompact_of_representable 65536 (by norm_num)
      (by rw [byteLength_eq 65536 3 (by norm_num) (by norm_num) (by norm_num)]; norm_num)
      1 2 (by norm_num) (by norm_num)⟩

/-! ## Parser: the drain loop moves the first `need` pending bytes -/

theorem drain_fst : ∀ (pending : List (List Nat)) (need : Nat),
    (drain pending need).1 = pending.flatten.take need := by
  intro pending
  induction pending with
  | nil => intro need; cases need <;> simp [drain]
  | cons buf rest ih =>
    intro need
    cases need with
    | zero => simp [drain]
    | succ n =>
      simp only [drain]
      split_ifs with hlen
      · simp only [List.flatten_cons]
        rw [ih, List.take_append_eq_append_take,
          List.take_of_length_le hlen]
      · simp only [List.flatten_cons]
        rw [List.take_append_eq_append_take]
        have h0 : n + 1 - buf.length = 0 := by omega
        simp [h0]

theorem drain_snd : ∀ (pending : List (List Nat)) (need : Nat),
    (drain pending need).2.flatten = pending.flatten.drop need := by
  intro pending
  induction pending with
  | nil => intro need; cases need <;> simp [drain]
  | cons buf rest ih =>
    intro need
    cases need with
    | zero => simp [drain]
    | succ n =>
      simp only [drain]
      split_ifs with hlen
      · simp only [List.flatten_cons]
        rw [ih, List.drop_append_eq_append_drop,
          List.drop_eq_nil_of_le hlen]
        simp
      · simp only [List.flatten_cons]
        rw [List.drop_append_eq_append_drop]
        have h0 : n + 1 - buf.length = 0 := by omega
        simp [h0]

theorem StEquiv_refl (p : Parser) : StEquiv p p := ⟨rfl, rfl, rfl, rfl, rfl⟩

theorem StEquiv_trans {p q r : Parser} (h1 : StEquiv p q) (h2 : StEquiv q r) :
    StEquiv p r := by
  obtain ⟨a1, a2, a3, a4, a5⟩ := h1
  obtain ⟨b1, b2, b3, b4, b5⟩ := h2
  exact ⟨a1.trans b1, a2.trans b2, a3.trans b3, a4.trans b4, a5.trans b5⟩

theorem ResEquiv_refl {ε α : Type} (r : List (PEvent ε α) × Option Parser) :
    ResEquiv r r := by
  refine ⟨rfl, ?_⟩
  cases hr : r.2 with
  | none => exact Or.inl ⟨rfl, rfl⟩
  | some p => exact Or.inr ⟨p, p, rfl, rfl, StEquiv_refl p⟩

section ParserLemmas

variable {ε α : Type} (M : Nat) (chk : List Nat → Nat)
variable (fromRaw : List Nat → List Nat → Except ε α)

theorem parse_eq_core (p : Parser) (data : List Nat) :
    parse M chk fromRaw p data =
      (parseCore M chk fromRaw p.network p.waiting p.header data).map
        (fun r => (r.1, { p with waiting := r.2.1, header := r.2.2 })) := by
  unfold parse parseCore
  cases hh : p.header with
  | none => split_ifs <;> rfl
  | some h =>
    dsimp only []
    split_ifs <;> try rfl
    cases fromRaw h.cmd data <;> rfl

/-- One successful `parse` call on a consistent state: the result exists
(the size assertion holds) and the new `waiting`/`header` are again
consistent; a payload step always resets. -/
theorem parseCore_sound (hM : 24 ≤ M) (net : Network) (waiting : Nat)
    (hdrO : Option Header) (data : List Nat)
    (hcons1 : hdrO = none → waiting = 24)
    (hcons2 : ∀ h, hdrO = some h → waiting = h.size ∧ h.size ≤ M)
    (hdata : data.length = waiting) :
    ∃ evs w' h', parseCore M chk fromRaw net waiting hdrO data =
        some (evs, w', h') ∧
      (h' = none → w' = 24) ∧
      (∀ h, h' = some h → w' = h.size ∧ h.size ≤ M) ∧
      (∀ h, hdrO = some h → w' = 24 ∧ h' = none) := by
  unfold parseCore
  cases hdrO with
  | none =>
    have hw : waiting = 24 := hcons1 rfl
    dsimp only
    rw [if_neg (by omega)]
    unfold parseHeader
    dsimp only
    split_ifs with h1 h2 h3
    · exact ⟨_, _, _, rfl, fun _ => hw, by simp, by simp⟩
    · exact ⟨_, _, _, rfl, fun _ => hw, by simp, by simp⟩
    · exact ⟨_, _, _, rfl, fun _ => rfl, by simp, by simp⟩
    · refine ⟨_, _, _, rfl, by simp, ?_, by simp⟩
      intro h hh
      injection hh with hh
      subst hh
      refine ⟨rfl, ?_⟩
      dsimp only
      omega
  | some h =>
    obtain ⟨hw, hsz⟩ := hcons2 h rfl
    dsimp only
    rw [if_neg (by omega)]
    split_ifs with h1
    · exact ⟨_, _, _, rfl, fun _ => rfl, by simp, fun _ _ => ⟨rfl, rfl⟩⟩
    · cases fromRaw h.cmd data with
      | error e => exact ⟨_, _, _, rfl, fun _ => rfl, by simp, fun _ _ => ⟨rfl, rfl⟩⟩
      | ok payload => exact ⟨_, _, _, rfl, fun _ => rfl, by simp, fun _ _ => ⟨rfl, rfl⟩⟩

theorem feedLoop_stop (fuel : Nat) (hf : 1 ≤ fuel) (p : Parser)
    (hg : p.total < p.waiting) :
    feedLoop M chk fromRaw fuel p = ([], some p) := by
  obtain ⟨f, rfl⟩ : ∃ f, fuel = f + 1 := ⟨fuel - 1, by omega⟩
  simp only [feedLoop]
  rw [if_neg (by omega)]

theorem feedLoop_cont (fuel : Nat) (p : Parser) (hg : p.waiting ≤ p.total)
    {evs : List (PEvent ε α)} {p2 : Parser}
    (hp : parse M chk fromRaw
        { p with pending := (drain p.pending p.waiting).2,
                 total := p.total - p.waiting }
        (drain p.pending p.waiting).1 = some (evs, p2)) :
    feedLoop M chk fromRaw (fuel + 1) p =
      (evs ++ (feedLoop M chk fromRaw fuel p2).1,
        (feedLoop M chk fromRaw fuel p2).2) := by
  simp only [feedLoop]
  rw [if_pos hg]
  simp only [hp]

theorem feedLoop_crash (fuel : Nat) (p : Parser) (hg : p.waiting ≤ p.total)
    (hp : parse M chk fromRaw
        { p with pending := (drain p.pending p.waiting).2,
                 total := p.total - p.waiting }
        (drain p.pending p.waiting).1 = (none : Option (List (PEvent ε α) × Parser))) :
    feedLoop M chk fromRaw (fuel + 1) p = ([], none) := by
  simp only [feedLoop]
  rw [if_pos hg]
  simp only [hp]

/-- One iteration of the `feed` loop from a consistent state: the drained
chunk parses without tripping the size assertion, consistency is kept and
the measure strictly decreases. -/
theorem step_sound (hM : 24 ≤ M) (p : Parser) (hInv : Inv M p)
    (hg : p.waiting ≤ p.total) :
    ∃ evs p2, parse M chk fromRaw
        { p with pending := (drain p.pending p.waiting).2,
                 total := p.total - p.waiting }
        (drain p.pending p.waiting).1 = some (evs, p2) ∧
      Inv M p2 ∧ pMeasure p2 < pMeasure p ∧ p2.network = p.network ∧
      p2.pending = (drain p.pending p.waiting).2 ∧
      p2.total = p.total - p.waiting := by
  obtain ⟨hTot, hCons1, hCons2⟩ := hInv
  have hchunk_len : (drain p.pending p.waiting).1.length = p.waiting := by
    rw [drain_fst, List.length_take]
    omega
  obtain ⟨evs, w', h', hcore, hc1, hc2, hc3⟩ :=
    parseCore_sound (ε := ε) (α := α) M chk fromRaw hM p.network p.waiting p.header
      (drain p.pending p.waiting).1 hCons1 hCons2 hchunk_len
  refine ⟨evs,
    { network := p.network, pending := (drain p.pending p.waiting).2,
      total := p.total - p.waiting, waiting := w', header := h' },
    ?_, ⟨?_, ?_, ?_⟩, ?_, rfl, rfl, rfl⟩
  · rw [parse_eq_core]
    dsimp only
    rw [hcore]
    rfl
  · dsimp only
    rw [drain_snd, List.length_drop]
    omega
  · exact hc1
  · exact hc2
  · unfold pMeasure
    dsimp only
    by_cases hw0 : p.waiting = 0
    · have hhdr : p.header ≠ none := by
        intro hn
        have := hCons1 hn
        omega
      obtain ⟨h, hh⟩ := Option.ne_none_iff_exists'.mp hhdr
      obtain ⟨hw24, _⟩ := hc3 h hh
      rw [hw0, hw24]
      norm_num
    · rw [if_neg hw0]
      split_ifs <;> omega

theorem feedLoop_ok (hM : 24 ≤ M) : ∀ (fuel : Nat) (p : Parser), Inv M p →
    pMeasure p + 1 ≤ fuel →
    ∃ evs q, feedLoop M chk fromRaw fuel p = (evs, some q) ∧ Inv M q ∧
      q.total < q.waiting ∧ q.network = p.network := by
  intro fuel
  induction fuel with
  | zero => intro p _ h; omega
  | succ f ih =>
    intro p hInv hfuel
    by_cases hg : p.waiting ≤ p.total
    · obtain ⟨evs, p2, hp, hInv2, hlt, hnet, _, _⟩ :=
        step_sound M chk fromRaw hM p hInv hg
      rw [feedLoop_cont M chk fromRaw f p hg hp]
      obtain ⟨evs2, q, hq, hInvq, hrest, hnetq⟩ := ih p2 hInv2 (by omega)
      rw [hq]
      exact ⟨evs ++ evs2, q, rfl, hInvq, hrest, by rw [hnetq, hnet]⟩
    · push_neg at hg
      rw [feedLoop_stop M chk fromRaw (f + 1) (by omega) p hg]
      exact ⟨[], p, rfl, ⟨hInv.1, hInv.2.1, hInv.2.2⟩, hg, rfl⟩

/-- Any two sufficient fuels run the loop identically. -/
theorem feedLoop_fuel_congr (hM : 24 ≤ M) : ∀ (fuel₁ fuel₂ : Nat) (p : Parser),
    Inv M p → pMeasure p + 1 ≤ fuel₁ → pMeasure p + 1 ≤ fuel₂ →
    feedLoop (ε := ε) (α := α) M chk fromRaw fuel₁ p =
      feedLoop M chk fromRaw fuel₂ p := by
  intro fuel₁
  induction fuel₁ with
  | zero => intro _ p _ h _; omega
  | succ f ih =>
    intro fuel₂ p hInv h1 h2
    obtain ⟨f2, rfl⟩ : ∃ g, fuel₂ = g + 1 := ⟨fuel₂ - 1, by omega⟩
    by_cases hg : p.waiting ≤ p.total
    · obtain ⟨evs, p2, hp, hInv2, hlt, _, _, _⟩ :=
        step_sound M chk fromRaw hM p hInv hg
      rw [feedLoop_cont M chk fromRaw f p hg hp,
        feedLoop_cont M chk fromRaw f2 p hg hp,
        ih f2 p2 hInv2 (by omega) (by omega)]
    · push_neg at hg
      rw [feedLoop_stop M chk fromRaw (f + 1) (by omega) p hg,
        feedLoop_stop M chk fromRaw (f2 + 1) (by omega) p hg]

/-- The loop result depends on the pending bytes only through their
concatenation, never through buffer boundaries. -/
theorem feedLoop_equiv : ∀ (fuel : Nat) (p q : Parser), StEquiv p q →
    ResEquiv (feedLoop M chk fromRaw fuel p) (feedLoop M chk fromRaw fuel q) := by
  intro fuel
  induction fuel with
  | zero => intro p q _; exact ⟨rfl, Or.inl ⟨rfl, rfl⟩⟩
  | succ f ih =>
    intro p q hpq
    obtain ⟨hnet, hflat, htot, hwait, hhdr⟩ := hpq
    by_cases hg : p.waiting ≤ p.total
    · have hgq : q.waiting ≤ q.total := by rw [← hwait, ← htot]; exact hg
      have hchunk : (drain p.pending p.waiting).1 = (drain q.pending q.waiting).1 := by
        rw [drain_fst, drain_fst, hflat, hwait]
      have hcoreeq : parseCore (ε := ε) (α := α) M chk fromRaw p.network p.waiting
            p.header (drain p.pending p.waiting).1 =
          parseCore M chk fromRaw q.network q.waiting q.header
            (drain q.pending q.waiting).1 := by
        rw [hchunk, hnet, hwait, hhdr]
      cases hc : parseCore (ε := ε) (α := α) M chk fromRaw p.network p.waiting
          p.header (drain p.pending p.waiting).1 with
      | none =>
        have hcq := hcoreeq.symm.trans hc
        have hp : parse M chk fromRaw
            { p with pending := (drain p.pending p.waiting).2,
                     total := p.total - p.waiting }
            (drain p.pending p.waiting).1 =
              (none : Option (List (PEvent ε α) × Parser)) := by
          rw [parse_eq_core]
          dsimp only
          rw [hc]
          rfl
        have hq : parse M chk fromRaw
            { q with pending := (drain q.pending q.waiting).2,
                     total := q.total - q.waiting }
            (drain q.pending q.waiting).1 =
              (none : Option (List (PEvent ε α) × Parser)) := by
          rw [parse_eq_core]
          dsimp only
          rw [hcq]
          rfl
        rw [feedLoop_crash M chk fromRaw f p hg hp,
          feedLoop_crash M chk fromRaw f q hgq hq]
        exact ⟨rfl, Or.inl ⟨rfl, rfl⟩⟩
      | some r =>
        obtain ⟨evs, w', h'⟩ := r
        have hcq := hcoreeq.symm.trans hc
        have hp : parse M chk fromRaw
            { p with pending := (drain p.pending p.waiting).2,
                     total := p.total - p.waiting }
            (drain p.pending p.waiting).1 =
              some (evs, { p with pending := (drain p.pending p.waiting).2,
                                  total := p.total - p.waiting,
                                  waiting := w', header := h' }) := by
          rw [parse_eq_core]
          dsimp only
          rw [hc]
          rfl
        have hq : parse M chk fromRaw
            { q with pending := (drain q.pending q.waiting).2,
                     total := q.total - q.waiting }
            (drain q.pending q.waiting).1 =
              some (evs, { q with pending := (drain q.pending q.waiting).2,
                                  total := q.total - q.waiting,
                                  waiting := w', header := h' }) := by
          rw [parse_eq_core]
          dsimp only
          rw [hcq]
          rfl
        rw [feedLoop_cont M chk fromRaw f p hg hp,
          feedLoop_cont M chk fromRaw f q hgq hq]
        have hpq2 : StEquiv
            { p with pending := (drain p.pending p.waiting).2,
                     total := p.total - p.waiting, waiting := w', header := h' }
            { q with pending := (drain q.pending q.waiting).2,
                     total := q.total - q.waiting, waiting := w', header := h' } := by
          refine ⟨hnet, ?_, ?_, rfl, rfl⟩
          · dsimp only
            rw [drain_snd, drain_snd, hflat, hwait]
          · dsimp only
            rw [htot, hwait]
        obtain ⟨hev, hst⟩ := ih _ _ hpq2
        exact ⟨by dsimp only; rw [hev], hst⟩
    · have hgq : ¬ q.waiting ≤ q.total := by rw [← hwait, ← htot]; exact hg
      push_neg at hg hgq
      rw [feedLoop_stop M chk fromRaw (f + 1) (by omega) p hg,
        feedLoop_stop M chk fromRaw (f + 1) (by omega) q hgq]
      exact ⟨rfl, Or.inr ⟨p, q, rfl, rfl, ⟨hnet, hflat, htot, hwait, hhdr⟩⟩⟩

theorem pMeasure_le (p : Parser) : pMeasure p ≤ 2 * p.total + 1 := by
  unfold pMeasure; split_ifs <;> omega

theorem le_pMeasure (p : Parser) : 2 * p.total ≤ pMeasure p := by
  unfold pMeasure; split_ifs <;> omega

theorem pMeasure_of_waiting_pos (p : Parser) (hw : p.waiting ≠ 0) :
    pMeasure p = 2 * p.total := by
  unfold pMeasure; rw [if_neg hw]; omega

theorem pushBuf_flatten (p : Parser) (c : List Nat) :
    (pushBuf p c).pending.flatten = p.pending.flatten ++ c := by
  unfold pushBuf
  dsimp only
  rw [List.flatten_append]
  simp

theorem Inv_pushBuf {M : Nat} (p : Parser) (c : List Nat) (h : Inv M p) :
    Inv M (pushBuf p c) := by
  obtain ⟨h1, h2, h3⟩ := h
  refine ⟨?_, h2, h3⟩
  show p.total + c.length = (pushBuf p c).pending.flatten.length
  rw [pushBuf_flatten, List.length_append, h1]

theorem feedLoop_push (hM : 24 ≤ M) : ∀ (fuel : Nat) (r : Parser) (c : List Nat),
    Inv M r → pMeasure r + 1 ≤ fuel →
    ∃ e1 s1, feedLoop M chk fromRaw fuel r = (e1, some s1) ∧
      ResEquiv (feedLoop M chk fromRaw (fuel + 2 * c.length) (pushBuf r c))
        (e1 ++ (feed M chk fromRaw s1 c).1, (feed M chk fromRaw s1 c).2) := by
  intro fuel
  induction fuel with
  | zero => intro r c _ h; omega
  | succ f ih =>
    intro r c hInv hfuel
    by_cases hg : r.waiting ≤ r.total
    · obtain ⟨evs, p2, hp, hInv2, hlt, hnet, hpend, htot⟩ :=
        step_sound M chk fromRaw hM r hInv hg
      rw [feedLoop_cont M chk fromRaw f r hg hp]
      obtain ⟨e1', s1, hrec, hres⟩ := ih p2 c hInv2 (by omega)
      rw [hrec]
      refine ⟨evs ++ e1', s1, rfl, ?_⟩
      have hgP : (pushBuf r c).waiting ≤ (pushBuf r c).total := by
        show r.waiting ≤ r.total + c.length
        omega
      have hwlen : r.waiting ≤ r.pending.flatten.length := by
        rw [← hInv.1]; exact hg
      have hchunkP : (drain (pushBuf r c).pending (pushBuf r c).waiting).1 =
          (drain r.pending r.waiting).1 := by
        rw [drain_fst, drain_fst, pushBuf_flatten]
        show (r.pending.flatten ++ c).take r.waiting = _
        rw [List.take_append_of_le_length hwlen]
      rcases hc : parseCore (ε := ε) (α := α) M chk fromRaw r.network r.waiting
          r.header (drain r.pending r.waiting).1 with _ | ⟨cevs, w', h'⟩
      · rw [parse_eq_core] at hp
        dsimp only at hp
        rw [hc] at hp
        simp at hp
      · rw [parse_eq_core] at hp
        dsimp only at hp
        rw [hc] at hp
        simp only [Option.map_some', Option.some.injEq, Prod.mk.injEq] at hp
        obtain ⟨hevseq, hp2⟩ := hp
        have hpP : parse M chk fromRaw
            { pushBuf r c with
                pending := (drain (pushBuf r c).pending (pushBuf r c).waiting).2,
                total := (pushBuf r c).total - (pushBuf r c).waiting }
            (drain (pushBuf r c).pending (pushBuf r c).waiting).1 =
              some (cevs,
                { pushBuf r c with
                    pending := (drain (pushBuf r c).pending (pushBuf r c).waiting).2,
                    total := (pushBuf r c).total - (pushBuf r c).waiting,
                    waiting := w', header := h' }) := by
          rw [parse_eq_core]
          dsimp only
          rw [hchunkP]
          show Option.map _ (parseCore M chk fromRaw r.network r.waiting r.header
            (drain r.pending r.waiting).1) = _
          rw [hc]
          rfl
        have harith : f + 1 + 2 * c.length = (f + 2 * c.length) + 1 := by omega
        rw [harith, feedLoop_cont M chk fromRaw (f + 2 * c.length) (pushBuf r c) hgP hpP]
        have hequivL : StEquiv
            { pushBuf r c with
                pending := (drain (pushBuf r c).pending (pushBuf r c).waiting).2,
                total := (pushBuf r c).total - (pushBuf r c).waiting,
                waiting := w', header := h' }
            (pushBuf p2 c) := by
          refine ⟨?_, ?_, ?_, ?_, ?_⟩
          · show r.network = p2.network
            exact hnet.symm
          · show (drain (pushBuf r c).pending (pushBuf r c).waiting).2.flatten =
              (pushBuf p2 c).pending.flatten
            rw [drain_snd, pushBuf_flatten, pushBuf_flatten, hpend, drain_snd]
            show (r.pending.flatten ++ c).drop r.waiting = _
            rw [List.drop_append_of_le_length hwlen]
          · show r.total + c.length - r.waiting = (pushBuf p2 c).total
            show r.total + c.length - r.waiting = p2.total + c.length
            omega
          · show w' = (pushBuf p2 c).waiting
            show w' = p2.waiting
            rw [← hp2]
          · show h' = (pushBuf p2 c).header
            show h' = p2.header
            rw [← hp2]
        have hEq1 := feedLoop_equiv M chk fromRaw (f + 2 * c.length) _ _ hequivL
        refine ⟨?_, ?_⟩
        · dsimp only
          rw [hEq1.1, hres.1, hevseq, List.append_assoc]
        · dsimp only
          rcases hEq1.2 with ⟨ha, hb⟩ | ⟨pa, pb, ha, hb, hab⟩ <;>
            rcases hres.2 with ⟨hc1, hd⟩ | ⟨pc, pd, hc1, hd, hcd⟩
          · exact Or.inl ⟨ha, hd⟩
          · rw [hb] at hc1
            exact absurd hc1 (by simp)
          · rw [hb] at hc1
            exact absurd hc1 (by simp)
          · refine Or.inr ⟨pa, pd, ha, hd, ?_⟩
            rw [hb] at hc1
            injection hc1 with hbc
            exact StEquiv_trans hab (hbc ▸ hcd)
    · push_neg at hg
      rw [feedLoop_stop M chk fromRaw (f + 1) (by omega) r hg]
      refine ⟨[], r, rfl, ?_⟩
      have hw1 : r.waiting ≠ 0 := by omega
      have hInvP : Inv M (pushBuf r c) := Inv_pushBuf r c hInv
      have hmp : pMeasure (pushBuf r c) = 2 * (r.total + c.length) := by
        rw [pMeasure_of_waiting_pos (pushBuf r c) (by exact hw1)]
        rfl
      have hmr : pMeasure r = 2 * r.total := pMeasure_of_waiting_pos r hw1
      have h1 : feedLoop (ε := ε) (α := α) M chk fromRaw (f + 1 + 2 * c.length)
            (pushBuf r c) =
          feedLoop M chk fromRaw (2 * (pushBuf r c).total + 2) (pushBuf r c) :=
        feedLoop_fuel_congr M chk fromRaw hM _ _ _ hInvP
          (by rw [hmp]; omega)
          (by rw [hmp]; show _ ≤ 2 * (r.total + c.length) + 2; omega)
      rw [h1]
      show ResEquiv (feed M chk fromRaw r c)
        ([] ++ (feed M chk fromRaw r c).1, (feed M chk fromRaw r c).2)
      refine ⟨by simp, ?_⟩
      cases hx : (feed M chk fromRaw r c).2 with
      | none => exact Or.inl ⟨rfl, rfl⟩
      | some pp => exact Or.inr ⟨pp, pp, rfl, rfl, StEquiv_refl pp⟩

end ParserLemmas

theorem StEquiv_symm {p q : Parser} (h : StEquiv p q) : StEquiv q p := by
  obtain ⟨a1, a2, a3, a4, a5⟩ := h
  exact ⟨a1.symm, a2.symm, a3.symm, a4.symm, a5.symm⟩

theorem Inv_equiv {M : Nat} {p q : Parser} (he : StEquiv p q) (h : Inv M p) :
    Inv M q := by
  obtain ⟨a1, a2, a3, a4, a5⟩ := he
  obtain ⟨h1, h2, h3⟩ := h
  refine ⟨?_, ?_, ?_⟩
  · rw [← a2, ← a3, h1]
  · rw [← a5, ← a4]; exact h2
  · rw [← a5, ← a4]; exact h3

theorem Inv_init (M : Nat) (net : Network) : Inv M (Parser.init net) := by
  refine ⟨rfl, fun _ => rfl, fun h hh => ?_⟩
  exact absurd hh (by simp [Parser.init])

theorem init_at_rest (net : Network) :
    (Parser.init net).total < (Parser.init net).waiting := by
  show 0 < 24
  norm_num

theorem ResEquiv_trans {ε α : Type} {r s t : List (PEvent ε α) × Option Parser}
    (h1 : ResEquiv r s) (h2 : ResEquiv s t) : ResEquiv r t := by
  refine ⟨h1.1.trans h2.1, ?_⟩
  rcases h1.2 with ⟨a1, a2⟩ | ⟨pa, pb, a1, a2, a3⟩ <;>
    rcases h2.2 with ⟨b1, b2⟩ | ⟨pc, pd, b1, b2, b3⟩
  · exact Or.inl ⟨a1, b2⟩
  · rw [a2] at b1
    exact absurd b1 (by simp)
  · rw [a2] at b1
    exact absurd b1 (by simp)
  · rw [a2] at b1
    injection b1 with h
    exact Or.inr ⟨pa, pd, a1, b2, StEquiv_trans a3 (h ▸ b3)⟩

section ParserClaims

variable {ε α : Type} (M : Nat) (chk : List Nat → Nat)
variable (fromRaw : List Nat → List Nat → Except ε α)

/-- Every sequence of `feed` calls from a consistent rest state ends in a
consistent rest state (and never trips the size assertion). -/
theorem feedAll_ok (hM : 24 ≤ M) : ∀ (pieces : List (List Nat)) (p : Parser),
    Inv M p → p.total < p.waiting →
    ∃ q, (feedAll M chk fromRaw p pieces).2 = some q ∧ Inv M q ∧
      q.total < q.waiting := by
  intro pieces
  induction pieces with
  | nil => intro p hInv hrest; exact ⟨p, rfl, hInv, hrest⟩
  | cons d rest ih =>
    intro p hInv hrest
    have hInvP : Inv M (pushBuf p d) := Inv_pushBuf p d hInv
    obtain ⟨e1, s1, hfeed, hInv1, hrest1, _⟩ :=
      feedLoop_ok M chk fromRaw hM (2 * (pushBuf p d).total + 2) (pushBuf p d)
        hInvP (by have := pMeasure_le (pushBuf p d); omega)
    have hfeed' : feed M chk fromRaw p d = (e1, some s1) := hfeed
    obtain ⟨q, hq, hInvq, hrestq⟩ := ih s1 hInv1 hrest1
    refine ⟨q, ?_, hInvq, hrestq⟩
    simp only [feedAll, hfeed', hq]

/-- **C5**: after any sequence of `feed` calls (from a fresh parser, with
the usual `24 ≤ MAX_MESSAGE`), the parser is at rest with `total <
waiting`; a missing header means `waiting = 24`; a present header means
`waiting` is its validated size, which is at most `MAX_MESSAGE`; so
`waiting` is always 24 or a validated size `≤ MAX_MESSAGE`. -/
theorem parser_state_invariant (net : Network) (hM : 24 ≤ M)
    (pieces : List (List Nat)) :
    ∃ q, (feedAll M chk fromRaw (Parser.init net) pieces).2 = some q ∧
      q.total < q.waiting ∧
      (q.header = none → q.waiting = 24) ∧
      (∀ h, q.header = some h → q.waiting = h.size ∧ h.size ≤ M) ∧
      (q.waiting = 24 ∨ q.waiting ≤ M) := by
  obtain ⟨q, hq, hInvq, hrestq⟩ :=
    feedAll_ok M chk fromRaw hM pieces (Parser.init net) (Inv_init M net)
      (init_at_rest net)
  refine ⟨q, hq, hrestq, hInvq.2.1, hInvq.2.2, ?_⟩
  cases hh : q.header with
  | none => exact Or.inl (hInvq.2.1 hh)
  | some h =>
    obtain ⟨hw, hsz⟩ := hInvq.2.2 h hh
    exact Or.inr (by omega)

/-- Witness for `parser_state_invariant`: two feeds on a tiny network. -/
theorem parser_state_invariant_witness :
    24 ≤ 100 ∧
      ∃ q, (feedAll 100 (fun _ => 0) (fun _ _ => (Except.ok 0 : Except Unit Nat))
          (Parser.init ⟨1, 0, 0⟩) [[1, 2], [3]]).2 = some q ∧
        q.total < q.waiting ∧
        (q.header = none → q.waiting = 24) ∧
        (∀ h, q.header = some h → q.waiting = h.size ∧ h.size ≤ 100) ∧
        (q.waiting = 24 ∨ q.waiting ≤ 100) :=
  ⟨by norm_num,
    parser_state_invariant 100 (fun _ => 0) (fun _ _ => Except.ok 0) ⟨1, 0, 0⟩
      (by norm_num) [[1, 2], [3]]⟩

/-- Feeding pieces one by one produces the same notifications as feeding
the concatenation to an equivalent parser at rest, and the final states
correspond. -/
theorem feedAll_equiv_feed (hM : 24 ≤ M) : ∀ (pieces : List (List Nat)) (p q : Parser),
    Inv M p → p.total < p.waiting → StEquiv p q →
    (feedAll M chk fromRaw p pieces).1 = (feed M chk fromRaw q pieces.flatten).1 ∧
    ∃ p' q', (feedAll M chk fromRaw p pieces).2 = some p' ∧
      (feed M chk fromRaw q pieces.flatten).2 = some q' ∧ StEquiv p' q' ∧
      Inv M p' ∧ p'.total < p'.waiting := by
  intro pieces
  induction pieces with
  | nil =>
    intro p q hInv hrest hpq
    obtain ⟨hnet, hflat, htot, hwait, hhdr⟩ := hpq
    have hrq : (pushBuf q []).total < (pushBuf q []).waiting := by
      show q.total + ([] : List Nat).length < q.waiting
      simp only [List.length_nil]
      omega
    have hstop : feed (ε := ε) (α := α) M chk fromRaw q [] =
        ([], some (pushBuf q [])) :=
      feedLoop_stop M chk fromRaw _ (by omega) _ hrq
    constructor
    · show ([] : List (PEvent ε α)) = _
      rw [show (([] : List (List Nat)).flatten) = ([] : List Nat) from rfl, hstop]
    · refine ⟨p, pushBuf q [], rfl, ?_, ?_, hInv, hrest⟩
      · rw [show (([] : List (List Nat)).flatten) = ([] : List Nat) from rfl, hstop]
      · refine ⟨hnet, ?_, ?_, hwait, hhdr⟩
        · rw [pushBuf_flatten]
          simpa using hflat
        · show p.total = q.total + ([] : List Nat).length
          simp [htot]
  | cons d rest ih =>
    intro p q hInv hrest hpq
    obtain ⟨hnet, hflat, htot, hwait, hhdr⟩ := hpq
    have hInvPp : Inv M (pushBuf p d) := Inv_pushBuf p d hInv
    obtain ⟨e1, s1, hfeedp, hInv1, hrest1, _⟩ :=
      feedLoop_ok M chk fromRaw hM (2 * (pushBuf p d).total + 2) (pushBuf p d)
        hInvPp (by have := pMeasure_le (pushBuf p d); omega)
    have hfeedp' : feed M chk fromRaw p d = (e1, some s1) := hfeedp
    have hpushEq : StEquiv (pushBuf p d) (pushBuf q d) := by
      refine ⟨hnet, ?_, ?_, hwait, hhdr⟩
      · rw [pushBuf_flatten, pushBuf_flatten, hflat]
      · show p.total + d.length = q.total + d.length
        omega
    have hfuelEq : 2 * (pushBuf p d).total + 2 = 2 * (pushBuf q d).total + 2 := by
      show 2 * (p.total + d.length) + 2 = 2 * (q.total + d.length) + 2
      omega
    have hEq1 := feedLoop_equiv M chk fromRaw (2 * (pushBuf p d).total + 2) _ _ hpushEq
    rw [hfeedp] at hEq1
    obtain ⟨hev1, hst1⟩ := hEq1
    rcases hst1 with ⟨ha, _⟩ | ⟨pa, pb, ha, hb, hab⟩
    · exact absurd ha (by simp)
    have hpa : pa = s1 := by
      have : some s1 = some pa := ha
      injection this with h
      exact h.symm
    have hs1pb : StEquiv s1 pb := hpa ▸ hab
    have hev1' : e1 = (feedLoop (ε := ε) (α := α) M chk fromRaw
        (2 * (pushBuf p d).total + 2) (pushBuf q d)).1 := hev1
    have hfq : feedLoop (ε := ε) (α := α) M chk fromRaw
        (2 * (pushBuf p d).total + 2) (pushBuf q d) = (e1, some pb) := by
      rw [hev1', ← hb]
    rw [hfuelEq] at hfq
    obtain ⟨ihev, p', q', hp', hq', hpq', hInvp', hrestp'⟩ := ih s1 pb hInv1 hrest1 hs1pb
    have hLHS : feedAll M chk fromRaw p (d :: rest) =
        (e1 ++ (feedAll M chk fromRaw s1 rest).1,
          (feedAll M chk fromRaw s1 rest).2) := by
      simp only [feedAll, hfeedp']
    have hInvq : Inv M q := Inv_equiv ⟨hnet, hflat, htot, hwait, hhdr⟩ hInv
    have hInvPq : Inv M (pushBuf q d) := Inv_pushBuf q d hInvq
    obtain ⟨e1'', s1'', hrun, hresPush⟩ :=
      feedLoop_push M chk fromRaw hM (2 * (pushBuf q d).total + 2) (pushBuf q d)
        rest.flatten hInvPq (by have := pMeasure_le (pushBuf q d); omega)
    rw [hfq] at hrun
    injection hrun with hrune hruns
    injection hruns with hruns
    rw [← hrune, ← hruns] at hresPush
    have hbig : StEquiv (pushBuf q (d ++ rest.flatten))
        (pushBuf (pushBuf q d) rest.flatten) := by
      refine ⟨rfl, ?_, ?_, rfl, rfl⟩
      · rw [pushBuf_flatten, pushBuf_flatten, pushBuf_flatten, List.append_assoc]
      · show q.total + (d ++ rest.flatten).length =
          q.total + d.length + rest.flatten.length
        rw [List.length_append]
        omega
    have hEqBig := feedLoop_equiv M chk fromRaw
      (2 * (pushBuf q (d ++ rest.flatten)).total + 2) _ _ hbig
    have hfuel2 : 2 * (pushBuf q (d ++ rest.flatten)).total + 2 =
        2 * (pushBuf q d).total + 2 + 2 * rest.flatten.length := by
      show 2 * (q.total + (d ++ rest.flatten).length) + 2 =
        2 * (q.total + d.length) + 2 + 2 * rest.flatten.length
      rw [List.length_append]
      ring
    rw [hfuel2] at hEqBig
    have hChain := ResEquiv_trans hEqBig hresPush
    have hfeedBig : feed (ε := ε) (α := α) M chk fromRaw q ((d :: rest).flatten) =
        feedLoop M chk fromRaw
          (2 * (pushBuf q d).total + 2 + 2 * rest.flatten.length)
          (pushBuf q (d ++ rest.flatten)) := by
      show feedLoop M chk fromRaw
          (2 * (pushBuf q (d ++ rest.flatten)).total + 2)
          (pushBuf q (d ++ rest.flatten)) = _
      rw [hfuel2]
    constructor
    · rw [hLHS, hfeedBig]
      dsimp only
      rw [ihev, hChain.1]
    · rcases hChain.2 with ⟨_, hB⟩ | ⟨a, b, hA, hB, hab2⟩
      · dsimp only at hB
        rw [hq'] at hB
        exact absurd hB (by simp)
      · dsimp only at hB
        rw [hq'] at hB
        injection hB with hbq
        refine ⟨p', a, ?_, ?_, ?_, hInvp', hrestp'⟩
        · rw [hLHS]
          exact hp'
        · rw [hfeedBig]
          exact hA
        · exact StEquiv_trans hpq' (hbq ▸ StEquiv_symm hab2)

/-- **C4**: feeding any partition of a byte sequence piece by piece to a
fresh parser produces exactly the notification sequence of feeding the
whole sequence at once. -/
theorem feed_split_invariance (net : Network) (hM : 24 ≤ M)
    (pieces : List (List Nat)) :
    (feedAll M chk fromRaw (Parser.init net) pieces).1 =
      (feed M chk fromRaw (Parser.init net) pieces.flatten).1 :=
  (feedAll_equiv_feed M chk fromRaw hM pieces (Parser.init net) (Parser.init net)
    (Inv_init M net) (init_at_rest net) (StEquiv_refl _)).1

/-- Witness for `feed_split_invariance` on a two-piece split. -/
theorem feed_split_invariance_witness :
    24 ≤ 100 ∧
      (feedAll 100 (fun _ => 0) (fun _ _ => (Except.ok 0 : Except Unit Nat))
          (Parser.init ⟨1, 0, 0⟩) [[1], [2, 3]]).1 =
        (feed 100 (fun _ => 0) (fun _ _ => (Except.ok 0 : Except Unit Nat))
          (Parser.init ⟨1, 0, 0⟩) [[1], [2, 3]].flatten).1 :=
  ⟨by norm_num,
    feed_split_invariance 100 (fun _ => 0) (fun _ _ => Except.ok 0) ⟨1, 0, 0⟩
      (by norm_num) [[1], [2, 3]]⟩

/-- `parseHeader` on a well-formed header: no event, `waiting` becomes the
declared size, the header record is returned. -/
theorem parseCore_header_ok (net : Network) (w : Nat) (data : List Nat)
    (hdlen : ¬ data.length > M)
    (hmagic : readU32LE data 0 = net.magic)
    (hcmd : cmdScan data 0 ≠ 12)
    (hsize : ¬ readU32LE data 16 > M) :
    parseCore (ε := ε) (α := α) M chk fromRaw net w none data =
      some ([], readU32LE data 16,
        some ⟨asciiSlice data 4 (4 + cmdScan data 0), readU32LE data 16,
          readU32LE data 20⟩) := by
  unfold parseCore
  rw [if_neg hdlen]
  dsimp only
  unfold parseHeader
  dsimp only
  rw [if_neg (by rw [hmagic]; exact fun h => h rfl), if_neg hcmd, if_neg hsize]

/-- `parseHeader` on a header whose declared size exceeds `MAX_MESSAGE`. -/
theorem parseCore_header_oversize (net : Network) (w : Nat) (data : List Nat)
    (hdlen : ¬ data.length > M)
    (hmagic : readU32LE data 0 = net.magic)
    (hcmd : cmdScan data 0 ≠ 12)
    (hsize : readU32LE data 16 > M) :
    parseCore (ε := ε) (α := α) M chk fromRaw net w none data =
      some ([PEvent.oversizePacket (readU32LE data 16)], 24, none) := by
  unfold parseCore
  rw [if_neg hdlen]
  dsimp only
  unfold parseHeader
  dsimp only
  rw [if_neg (by rw [hmagic]; exact fun h => h rfl), if_neg hcmd, if_pos hsize]

/-- A payload whose checksum does not match the stored header. -/
theorem parseCore_payload_badsum (net : Network) (w : Nat) (h : Header)
    (data : List Nat) (hdlen : ¬ data.length > M)
    (hbad : chk data ≠ h.checksum) :
    parseCore (ε := ε) (α := α) M chk fromRaw net w (some h) data =
      some ([PEvent.invalidChecksum (chk data)], 24, none) := by
  unfold parseCore
  rw [if_neg hdlen]
  dsimp only
  rw [if_pos hbad]

/-- Draining one buffer of exactly the needed (positive) size leaves an
empty queue. -/
theorem drain_single_snd (b : List Nat) (n : Nat) (hb : b.length = n)
    (hn : 0 < n) : (drain [b] n).2 = [] := by
  obtain ⟨m, rfl⟩ : ∃ m, n = m + 1 := ⟨n - 1, by omega⟩
  simp only [drain]
  rw [if_pos (by omega)]
  rw [show m + 1 - b.length = 0 by omega]
  simp [drain]

/-- **C6**: a frame whose 24-byte header parses (matching magic,
NUL-terminated command, size within bounds) but whose payload hashes to a
checksum different from the header field produces exactly one
`InvalidChecksum` error, no packet, and leaves the parser awaiting a
header with `waiting = 24`, no header and no unconsumed bytes. -/
theorem parser_invalid_checksum (net : Network) (hM : 24 ≤ M)
    (hdr payload : List Nat) (hlen : hdr.length = 24)
    (hmagic : readU32LE hdr 0 = net.magic)
    (hcmd : cmdScan hdr 0 ≠ 12)
    (hsize : readU32LE hdr 16 = payload.length)
    (hpay : payload.length ≤ M)
    (hbad : chk payload ≠ readU32LE hdr 20) :
    ∃ q, feed M chk fromRaw (Parser.init net) (hdr ++ payload) =
        ([PEvent.invalidChecksum (chk payload)], some q) ∧
      q.waiting = 24 ∧ q.header = none ∧ q.total = 0 ∧ q.pending.flatten = [] := by
  set P0 : Parser := pushBuf (Parser.init net) (hdr ++ payload) with hP0
  have hW0 : P0.waiting = 24 := rfl
  have hH0 : P0.header = none := rfl
  have hN0 : P0.network = net := rfl
  have htot0 : P0.total = 24 + payload.length := by
    rw [hP0]
    show 0 + (hdr ++ payload).length = 24 + payload.length
    rw [List.length_append, hlen]
    omega
  have hF0 : P0.pending.flatten = hdr ++ payload := by
    rw [hP0, pushBuf_flatten]
    show (Parser.init net).pending.flatten ++ (hdr ++ payload) = hdr ++ payload
    simp [Parser.init]
  have hg1 : P0.waiting ≤ P0.total := by rw [hW0, htot0]; omega
  have hchunk1 : (drain P0.pending P0.waiting).1 = hdr := by
    rw [drain_fst, hF0, hW0, List.take_append_of_le_length (by omega),
      List.take_of_length_le (by omega)]
  set D1 : List (List Nat) := (drain P0.pending P0.waiting).2 with hD1
  set H1 : Header := ⟨asciiSlice hdr 4 (4 + cmdScan hdr 0), payload.length,
    readU32LE hdr 20⟩ with hH1
  set P1 : Parser := { P0 with pending := D1, total := P0.total - P0.waiting, waiting := payload.length, header := some H1 } with hP1d
  have hp1 : parse M chk fromRaw
      { P0 with pending := D1, total := P0.total - P0.waiting }
      (drain P0.pending P0.waiting).1 = some ([], P1) := by
    rw [parse_eq_core]
    dsimp only
    rw [hchunk1, hN0, hW0, hH0,
      parseCore_header_ok M chk fromRaw net 24 hdr (by omega) hmagic hcmd
        (by rw [hsize]; omega),
      hsize]
    rfl
  have hfuel : 2 * P0.total + 2 = (2 * payload.length + 49) + 1 := by
    rw [htot0]; omega
  have hrun1 : feed (ε := ε) (α := α) M chk fromRaw (Parser.init net)
      (hdr ++ payload) =
      ([] ++ (feedLoop M chk fromRaw (2 * payload.length + 49) P1).1,
        (feedLoop M chk fromRaw (2 * payload.length + 49) P1).2) := by
    show feedLoop M chk fromRaw (2 * P0.total + 2) P0 = _
    rw [hfuel]
    exact feedLoop_cont M chk fromRaw _ P0 hg1 hp1
  have hg2 : P1.waiting ≤ P1.total := by
    show payload.length ≤ P0.total - P0.waiting
    rw [hW0, htot0]
    omega
  have hflat1 : P1.pending.flatten = payload := by
    show D1.flatten = payload
    rw [hD1, drain_snd, hF0, hW0, List.drop_append_of_le_length (by omega),
      List.drop_eq_nil_of_le (by omega)]
    simp
  have hchunk2 : (drain P1.pending P1.waiting).1 = payload := by
    rw [drain_fst, hflat1]
    show payload.take payload.length = payload
    exact List.take_length payload
  set P2 : Parser := { P1 with pending := (drain P1.pending P1.waiting).2, total := P1.total - P1.waiting, waiting := 24, header := none } with hP2d
  have hp2 : parse M chk fromRaw
      { P1 with pending := (drain P1.pending P1.waiting).2, total := P1.total - P1.waiting }
      (drain P1.pending P1.waiting).1 =
      some ([PEvent.invalidChecksum (chk payload)], P2) := by
    rw [parse_eq_core]
    dsimp only
    rw [hchunk2, hN0,
      parseCore_payload_badsum M chk fromRaw net payload.length H1 payload
        (by omega) (by rw [hH1]; exact hbad)]
    rfl
  have hfuel2 : 2 * payload.length + 49 = (2 * payload.length + 48) + 1 := by omega
  have hrun2 : feedLoop (ε := ε) (α := α) M chk fromRaw
      (2 * payload.length + 49) P1 =
      ([PEvent.invalidChecksum (chk payload)] ++
          (feedLoop M chk fromRaw (2 * payload.length + 48) P2).1,
        (feedLoop M chk fromRaw (2 * payload.length + 48) P2).2) := by
    rw [hfuel2]
    exact feedLoop_cont M chk fromRaw _ P1 hg2 hp2
  have hT2 : P2.total = 0 := by
    show P0.total - P0.waiting - payload.length = 0
    rw [htot0, hW0]
    omega
  have hg3 : P2.total < P2.waiting := by
    rw [hT2]
    show (0 : Nat) < 24
    norm_num
  have hrun3 : feedLoop (ε := ε) (α := α) M chk fromRaw
      (2 * payload.length + 48) P2 = ([], some P2) :=
    feedLoop_stop M chk fromRaw _ (by omega) P2 hg3
  refine ⟨P2, ?_, rfl, rfl, hT2, ?_⟩
  · rw [hrun1, hrun2, hrun3]
    simp
  · show (drain P1.pending P1.waiting).2.flatten = []
    rw [drain_snd, hflat1]
    show payload.drop payload.length = []
    simp

/-- Witness for `parser_invalid_checksum`: a 24-byte header declaring a
2-byte payload with checksum field 9, while the checksum function returns
0. -/
theorem parser_invalid_checksum_witness :
    ((24 : Nat) ≤ 100 ∧
      ([1, 0, 0, 0, 97, 0, 0, 0, 0, 0, 0, 0, 0, 0, 0, 0, 2, 0, 0, 0, 9, 0, 0, 0] :
        List Nat).length = 24 ∧
      readU32LE [1, 0, 0, 0, 97, 0, 0, 0, 0, 0, 0, 0, 0, 0, 0, 0, 2, 0, 0, 0, 9, 0, 0, 0] 0 =
        (⟨1, 0, 0⟩ : Network).magic ∧
      cmdScan [1, 0, 0, 0, 97, 0, 0, 0, 0, 0, 0, 0, 0, 0, 0, 0, 2, 0, 0, 0, 9, 0, 0, 0] 0 ≠ 12 ∧
      readU32LE [1, 0, 0, 0, 97, 0, 0, 0, 0, 0, 0, 0, 0, 0, 0, 0, 2, 0, 0, 0, 9, 0, 0, 0] 16 =
        ([5, 6] : List Nat).length ∧
      ([5, 6] : List Nat).length ≤ 100 ∧
      (fun _ => (0 : Nat)) ([5, 6] : List Nat) ≠
        readU32LE [1, 0, 0, 0, 97, 0, 0, 0, 0, 0, 0, 0, 0, 0, 0, 0, 2, 0, 0, 0, 9, 0, 0, 0] 20) ∧
    ∃ q, feed 100 (fun _ => (0 : Nat)) (fun _ _ => (Except.ok 0 : Except Unit Nat))
        (Parser.init ⟨1, 0, 0⟩)
        ([1, 0, 0, 0, 97, 0, 0, 0, 0, 0, 0, 0, 0, 0, 0, 0, 2, 0, 0, 0, 9, 0, 0, 0] ++ [5, 6]) =
        ([PEvent.invalidChecksum ((fun _ => (0 : Nat)) ([5, 6] : List Nat))], some q) ∧
      q.waiting = 24 ∧ q.header = none ∧ q.total = 0 ∧ q.pending.flatten = [] :=
  ⟨⟨by decide, by decide, by decide, by decide, by decide, by decide, by decide⟩,
    parser_invalid_checksum 100 (fun _ => 0) (fun _ _ => Except.ok 0) ⟨1, 0, 0⟩
      (by decide) [1, 0, 0, 0, 97, 0, 0, 0, 0, 0, 0, 0, 0, 0, 0, 0, 2, 0, 0, 0, 9, 0, 0, 0]
      [5, 6] (by decide) (by decide) (by decide) (by decide) (by decide) (by decide)⟩

/-- **C7**: a consumed header with matching magic and NUL-terminated
command but a declared size above `MAX_MESSAGE` yields exactly one
`OversizePacket` error and returns the parser to its initial state —
only the 24 header bytes were consumed, the declared payload is not
drained, and any subsequent input is parsed as a fresh stream. -/
theorem parser_oversize_packet (net : Network) (hM : 24 ≤ M)
    (hdr : List Nat) (hlen : hdr.length = 24)
    (hmagic : readU32LE hdr 0 = net.magic)
    (hcmd : cmdScan hdr 0 ≠ 12)
    (hover : readU32LE hdr 16 > M) :
    feed M chk fromRaw (Parser.init net) hdr =
      ([PEvent.oversizePacket (readU32LE hdr 16)], some (Parser.init net)) ∧
    ∀ X : List Nat,
      (feed M chk fromRaw (Parser.init net) (hdr ++ X)).1 =
        PEvent.oversizePacket (readU32LE hdr 16) ::
          (feed M chk fromRaw (Parser.init net) X).1 := by
  set P0 : Parser := pushBuf (Parser.init net) hdr with hP0
  have hW0 : P0.waiting = 24 := rfl
  have hH0 : P0.header = none := rfl
  have hN0 : P0.network = net := rfl
  have htot0 : P0.total = 24 := by
    rw [hP0]
    show 0 + hdr.length = 24
    omega
  have hF0 : P0.pending.flatten = hdr := by
    rw [hP0, pushBuf_flatten]
    show (Parser.init net).pending.flatten ++ hdr = hdr
    simp [Parser.init]
  have hg1 : P0.waiting ≤ P0.total := by rw [hW0, htot0]
  have hchunk1 : (drain P0.pending P0.waiting).1 = hdr := by
    rw [drain_fst, hF0, hW0, List.take_of_length_le (by omega)]
  set D1 : List (List Nat) := (drain P0.pending P0.waiting).2 with hD1
  set P1 : Parser := { P0 with pending := D1, total := P0.total - P0.waiting, waiting := 24, header := none } with hP1d
  have hp1 : parse M chk fromRaw
      { P0 with pending := D1, total := P0.total - P0.waiting }
      (drain P0.pending P0.waiting).1 =
      some ([PEvent.oversizePacket (readU32LE hdr 16)], P1) := by
    rw [parse_eq_core]
    dsimp only
    rw [hchunk1, hN0, hW0, hH0,
      parseCore_header_oversize M chk fromRaw net 24 hdr (by omega) hmagic hcmd hover]
    rfl
  have hfuel : 2 * P0.total + 2 = 49 + 1 := by rw [htot0]
  have hrun1 : feed (ε := ε) (α := α) M chk fromRaw (Parser.init net) hdr =
      ([PEvent.oversizePacket (readU32LE hdr 16)] ++
          (feedLoop M chk fromRaw 49 P1).1,
        (feedLoop M chk fromRaw 49 P1).2) := by
    show feedLoop M chk fromRaw (2 * P0.total + 2) P0 = _
    rw [hfuel]
    exact feedLoop_cont M chk fromRaw _ P0 hg1 hp1
  have hT1 : P1.total = 0 := by
    show P0.total - P0.waiting = 0
    rw [htot0, hW0]
  have hg2 : P1.total < P1.waiting := by
    rw [hT1]
    show (0 : Nat) < 24
    norm_num
  have hrun2 : feedLoop (ε := ε) (α := α) M chk fromRaw 49 P1 = ([], some P1) :=
    feedLoop_stop M chk fromRaw _ (by omega) P1 hg2
  have hD1e : D1 = [] := by
    show (drain [hdr] 24).2 = []
    exact drain_single_snd hdr 24 hlen (by norm_num)
  have hfin : P1 = Parser.init net := by
    rw [hP1d, hD1e, hN0, htot0, hW0]
    rfl
  have hpart1 : feed M chk fromRaw (Parser.init net) hdr =
      ([PEvent.oversizePacket (readU32LE hdr 16)], some (Parser.init net)) := by
    rw [hrun1, hrun2, hfin]
    simp
  refine ⟨hpart1, ?_⟩
  intro X
  have h1 := (feedAll_equiv_feed M chk fromRaw hM [hdr, X] (Parser.init net)
    (Parser.init net) (Inv_init M net) (init_at_rest net) (StEquiv_refl _)).1
  have hflat : ([hdr, X] : List (List Nat)).flatten = hdr ++ X := by simp
  obtain ⟨eX, sX, hfX, _, _, _⟩ :=
    feedLoop_ok M chk fromRaw hM (2 * (pushBuf (Parser.init net) X).total + 2)
      (pushBuf (Parser.init net) X) (Inv_pushBuf _ X (Inv_init M net))
      (by have := pMeasure_le (pushBuf (Parser.init net) X); omega)
  have hfX' : feed M chk fromRaw (Parser.init net) X = (eX, some sX) := hfX
  have hAll : (feedAll M chk fromRaw (Parser.init net) [hdr, X]).1 =
      PEvent.oversizePacket (readU32LE hdr 16) :: eX := by
    simp only [feedAll, hpart1, hfX']
    simp
  calc (feed M chk fromRaw (Parser.init net) (hdr ++ X)).1
      = (feed M chk fromRaw (Parser.init net) ([hdr, X] : List (List Nat)).flatten).1 := by
        rw [hflat]
    _ = (feedAll M chk fromRaw (Parser.init net) [hdr, X]).1 := h1.symm
    _ = PEvent.oversizePacket (readU32LE hdr 16) :: eX := hAll
    _ = PEvent.oversizePacket (readU32LE hdr 16) ::
          (feed M chk fromRaw (Parser.init net) X).1 := by rw [hfX']

/-- Witness for `parser_oversize_packet`: a header declaring a 101-byte
payload against `MAX_MESSAGE = 100`. -/
theorem parser_oversize_packet_witness :
    ((24 : Nat) ≤ 100 ∧
      ([1, 0, 0, 0, 97, 0, 0, 0, 0, 0, 0, 0, 0, 0, 0, 0, 101, 0, 0, 0, 7, 0, 0, 0] :
        List Nat).length = 24 ∧
      readU32LE [1, 0, 0, 0, 97, 0, 0, 0, 0, 0, 0, 0, 0, 0, 0, 0, 101, 0, 0, 0, 7, 0, 0, 0] 0 =
        (⟨1, 0, 0⟩ : Network).magic ∧
      cmdScan [1, 0, 0, 0, 97, 0, 0, 0, 0, 0, 0, 0, 0, 0, 0, 0, 101, 0, 0, 0, 7, 0, 0, 0] 0 ≠ 12 ∧
      readU32LE [1, 0, 0, 0, 97, 0, 0, 0, 0, 0, 0, 0, 0, 0, 0, 0, 101, 0, 0, 0, 7, 0, 0, 0] 16 > 100) ∧
    (feed 100 (fun _ => (0 : Nat)) (fun _ _ => (Except.ok 0 : Except Unit Nat))
        (Parser.init ⟨1, 0, 0⟩)
        [1, 0, 0, 0, 97, 0, 0, 0, 0, 0, 0, 0, 0, 0, 0, 0, 101, 0, 0, 0, 7, 0, 0, 0] =
        ([PEvent.oversizePacket (readU32LE
            [1, 0, 0, 0, 97, 0, 0, 0, 0, 0, 0, 0, 0, 0, 0, 0, 101, 0, 0, 0, 7, 0, 0, 0] 16)],
          some (Parser.init ⟨1, 0, 0⟩)) ∧
      ∀ X : List Nat,
        (feed 100 (fun _ => (0 : Nat)) (fun _ _ => (Except.ok 0 : Except Unit Nat))
            (Parser.init ⟨1, 0, 0⟩)
            ([1, 0, 0, 0, 97, 0, 0, 0, 0, 0, 0, 0, 0, 0, 0, 0, 101, 0, 0, 0, 7, 0, 0, 0] ++ X)).1 =
          PEvent.oversizePacket (readU32LE
            [1, 0, 0, 0, 97, 0, 0, 0, 0, 0, 0, 0, 0, 0, 0, 0, 101, 0, 0, 0, 7, 0, 0, 0] 16) ::
            (feed 100 (fun _ => (0 : Nat)) (fun _ _ => (Except.ok 0 : Except Unit Nat))
              (Parser.init ⟨1, 0, 0⟩) X).1) :=
  ⟨⟨by decide, by decide, by decide, by decide, by decide⟩,
    parser_oversize_packet 100 (fun _ => 0) (fun _ _ => Except.ok 0) ⟨1, 0, 0⟩
      (by decide) [1, 0, 0, 0, 97, 0, 0, 0, 0, 0, 0, 0, 0, 0, 0, 0, 101, 0, 0, 0, 7, 0, 0, 0]
      (by decide) (by decide) (by decide) (by decide)⟩

end ParserClaims

end Ccoin
